import Mathlib

/-!
Verification of the OSC→MIDI/CV mapper (src/main.rs).

The program receives OSC datagrams over UDP, decodes them, resolves the OSC
address through a fixed address map, writes the bipolar-transformed value into
a shared 8-slot value store read by the audio render callback, and sends a
3-byte MIDI controller-change frame per applicable message.

We embed the pure core of the program: float values are modelled as rationals
(the relevant f32 arithmetic — `v * 2.0 - 1.0`, `(v * 127.0).clamp(0.0,
127.0) as u8` for the small literals involved — is exact, and the `as u8`
cast of a clamped non-negative float truncates, i.e. takes the floor).
The ingest loop body (main.rs lines 138–169) becomes a step function over an
explicit store, with the outcome of each datagram's decode stage and of each
MIDI send given as data; `.unwrap()` panics become a `fatal` flag, and the
out-of-bounds indexing panic of `vals[channel]` becomes the `none` branch of
`storeWrite`.
-/

namespace OscMidiCv

/-- OSC argument values, as in the `rosc` crate's `OscType` (only the float
constructor is consulted by the program; other shapes are dispatch-irrelevant). -/
inductive OscType where
  | Float (v : ℚ)
  | Int (n : ℤ)
  | Str (s : String)
  deriving DecidableEq

/-- An OSC message: address plus positional arguments (`rosc::OscMessage`). -/
structure OscMessage where
  addr : String
  args : List OscType
  deriving DecidableEq

/-- A decoded OSC packet: a single message or a bundle (`rosc::OscPacket`).
The program only matches the `Message` case. -/
inductive OscPacket where
  | Message (m : OscMessage)
  | Bundle
  deriving DecidableEq

/-- The decode outcome for one received datagram: `decoder::decode_udp` either
fails (`undecodable`) or yields a packet. -/
inductive Datagram where
  | undecodable
  | packet (p : OscPacket)
  deriving DecidableEq

/-- The fixed address map of main.rs lines 125–135. -/
def osc_address_map : List (String × Nat) :=
  [("/lfo1", 0), ("/lfo2", 1), ("/lfo3", 2), ("/lfo4", 3),
   ("/stepped32", 4), ("/stepped8", 5)]

/-- Exact-string lookup in the address map (`osc_address_map.get(addr)`). -/
def lookupAddr (a : String) : Option Nat :=
  (osc_address_map.find? (fun p => p.1 == a)).map Prod.snd

/-- The bipolar audio transform: `let audio_val = value * 2.0 - 1.0;`. -/
def audio_val (v : ℚ) : ℚ := v * 2 - 1

/-- Rust's `f32::clamp(lo, hi)` on exact rational values. -/
def clampQ (x lo hi : ℚ) : ℚ := if x < lo then lo else if hi < x then hi else x

/-- The MIDI value: `(value * 127.0).clamp(0.0, 127.0) as u8`. The cast of the
clamped (hence in `[0,127]`, non-negative) float truncates toward zero. -/
def midi_val (v : ℚ) : Nat := (⌊clampQ (v * 127) 0 127⌋).toNat

/-- The 3-byte controller-change frame `[0xB0, channel as u8, midi_val]`. -/
def midi_message (channel : Nat) (v : Nat) : List Nat := [0xB0, channel, v]

/-- The shared value store `latest_values` at startup: `vec![0f32; 8]`. -/
def initial_values : List ℚ := List.replicate 8 0

/-- Indexed store write `vals[channel] = audio_val`: in bounds it overwrites
one slot; out of bounds Rust panics, which we model as `none`. -/
def storeWrite (s : List ℚ) (i : Nat) (v : ℚ) : Option (List ℚ) :=
  if i < s.length then some (s.set i v) else none

/-- The dispatch stage of the loop body: a datagram is applicable exactly when
it decodes to a single message whose address is in the map and whose first
argument is a float (the nested `if let`s of lines 141–143). -/
def applicable (d : Datagram) : Option (Nat × ℚ) :=
  match d with
  | .undecodable => none
  | .packet .Bundle => none
  | .packet (.Message m) =>
    match lookupAddr m.addr with
    | none => none
    | some channel =>
      match m.args.head? with
      | some (.Float v) => some (channel, v)
      | _ => none

/-- Outcome of one ingest iteration: the store afterwards, the MIDI frames
successfully sent, and whether the iteration panicked (`.unwrap()` failure). -/
structure StepResult where
  store : List ℚ
  frames : List (List Nat)
  fatal : Bool
  deriving DecidableEq

/-- One iteration of the ingest loop body (lines 139–168) on one datagram.
`sendOk` is the outcome of `midi_conn.send`: `false` makes the `.unwrap()`
panic, after the store write but before a frame is delivered. -/
def ingestStep (sendOk : Bool) (store : List ℚ) (d : Datagram) : StepResult :=
  match applicable d with
  | none => ⟨store, [], false⟩
  | some (channel, v) =>
    match storeWrite store channel (audio_val v) with
    | none => ⟨store, [], true⟩
    | some store' =>
      if sendOk then ⟨store', [midi_message channel (midi_val v)], false⟩
      else ⟨store', [], true⟩

/-- Outcome of running the ingest loop over a finite prefix of datagrams. -/
structure RunResult where
  store : List ℚ
  frames : List (List Nat)
  fatal : Bool
  consumed : Nat
  deriving DecidableEq

/-- The ingest loop over a finite list of datagrams, each paired with its MIDI
send outcome. A fatal iteration (panic) stops the loop; otherwise it
continues with the next datagram. `consumed` counts ingested datagrams. -/
def ingestRun : List (Datagram × Bool) → List ℚ → RunResult
  | [], s => ⟨s, [], false, 0⟩
  | (d, ok) :: rest, s =>
    let r := ingestStep ok s d
    if r.fatal then ⟨r.store, r.frames, true, 1⟩
    else
      let rr := ingestRun rest r.store
      ⟨rr.store, r.frames ++ rr.frames, rr.fatal, rr.consumed + 1⟩

/-- Rust's `chunks_mut(n)`: consecutive chunks of length `n`, the last chunk
possibly shorter. (`chunks_mut` requires `n > 0`; the program uses `n = 8`.) -/
def chunksOf (n : Nat) (l : List ℚ) : List (List ℚ) :=
  if hc : n = 0 ∨ l = [] then []
  else l.take n :: chunksOf n (l.drop n)
termination_by l.length
decreasing_by
  push_neg at hc
  obtain ⟨hn, hl⟩ := hc
  have hl' : 0 < l.length := List.length_pos.mpr hl
  simp only [List.length_drop]
  omega

/-- One frame of the render callback's inner loop:
`frame.iter_mut().zip(values.iter())` writes `values[k]` into sample `k` for
`k < min(frame.len(), values.len())` and leaves the remaining samples as they
were. -/
def fillFrame (values frame : List ℚ) : List ℚ :=
  values.take frame.length ++ frame.drop values.length

/-- The audio render callback body (lines 107–114): split the output buffer
into frames of `channels` samples and broadcast the current store values into
each frame. -/
def fillBuffer (channels : Nat) (values data : List ℚ) : List ℚ :=
  ((chunksOf channels data).map (fillFrame values)).flatten

/-- The value written by the last message of a list that resolves to channel
`c`, if any (stating the spec's last-write-wins property). -/
def lastWriteTo (c : Nat) : List (String × ℚ) → Option ℚ
  | [] => none
  | p :: rest =>
    match lastWriteTo c rest with
    | some v => some v
    | none => if lookupAddr p.1 = some c then some (audio_val p.2) else none

/-- A list of address/value pairs packaged as message datagrams with
successful MIDI sends, as fed to `ingestRun`. -/
def msgInputs (msgs : List (String × ℚ)) : List (Datagram × Bool) :=
  msgs.map (fun p => (Datagram.packet (OscPacket.Message ⟨p.1, [OscType.Float p.2]⟩), true))

/-! Shared lemmas about the embedded definitions. -/

theorem lookupAddr_lt_eight {a : String} {i : Nat} (h : lookupAddr a = some i) :
    i < 8 := by
  unfold lookupAddr at h
  cases hf : osc_address_map.find? (fun p => p.1 == a) with
  | none => rw [hf] at h; simp at h
  | some p =>
    rw [hf] at h
    simp only [Option.map_some'] at h
    have hp : p.2 = i := Option.some.inj h
    have hm : p ∈ osc_address_map := List.mem_of_find?_eq_some hf
    have h8 : p.2 < 8 := by
      simp only [osc_address_map, List.mem_cons, List.not_mem_nil, or_false] at hm
      rcases hm with rfl | rfl | rfl | rfl | rfl | rfl <;> norm_num
    omega

theorem applicable_some {d : Datagram} {ch : Nat} {v : ℚ}
    (h : applicable d = some (ch, v)) :
    ∃ m : OscMessage, d = .packet (.Message m) ∧ lookupAddr m.addr = some ch ∧
      m.args.head? = some (.Float v) := by
  cases d with
  | undecodable => simp [applicable] at h
  | packet p =>
    cases p with
    | Bundle => simp [applicable] at h
    | Message m =>
      refine ⟨m, rfl, ?_⟩
      simp only [applicable] at h
      cases hl : lookupAddr m.addr with
      | none => rw [hl] at h; simp at h
      | some c =>
        rw [hl] at h
        cases hh : m.args.head? with
        | none => rw [hh] at h; simp at h
        | some t =>
          rw [hh] at h
          cases t with
          | Float w =>
            simp only [Option.some.injEq, Prod.mk.injEq] at h
            obtain ⟨rfl, rfl⟩ := h
            exact ⟨rfl, rfl⟩
          | Int n => simp at h
          | Str s => simp at h

theorem applicable_channel_lt {d : Datagram} {ch : Nat} {v : ℚ}
    (h : applicable d = some (ch, v)) : ch < 8 := by
  obtain ⟨m, _, hl, _⟩ := applicable_some h
  exact lookupAddr_lt_eight hl

theorem applicable_float {m : OscMessage} {ch : Nat} {v : ℚ}
    (h1 : lookupAddr m.addr = some ch) (h2 : m.args.head? = some (.Float v)) :
    applicable (.packet (.Message m)) = some (ch, v) := by
  simp [applicable, h1, h2]

theorem ingestStep_na {ok : Bool} {s : List ℚ} {d : Datagram}
    (h : applicable d = none) : ingestStep ok s d = ⟨s, [], false⟩ := by
  simp [ingestStep, h]

theorem ingestStep_ok {s : List ℚ} {d : Datagram} {ch : Nat} {v : ℚ}
    (hs : s.length = 8) (h : applicable d = some (ch, v)) :
    ingestStep true s d =
      ⟨s.set ch (audio_val v), [midi_message ch (midi_val v)], false⟩ := by
  have hch : ch < 8 := applicable_channel_lt h
  simp [ingestStep, h, storeWrite, hs, hch]

theorem ingestStep_sendFail {s : List ℚ} {d : Datagram} {ch : Nat} {v : ℚ}
    (hs : s.length = 8) (h : applicable d = some (ch, v)) :
    ingestStep false s d = ⟨s.set ch (audio_val v), [], true⟩ := by
  have hch : ch < 8 := applicable_channel_lt h
  simp [ingestStep, h, storeWrite, hs, hch]

theorem fillFrame_of_take {n : Nat} {values : List ℚ} (data : List ℚ)
    (hv : values.length = n) :
    fillFrame values (data.take n) = values.take (min n data.length) := by
  unfold fillFrame
  rw [hv, List.drop_eq_nil_of_le (by rw [List.length_take]; exact min_le_left _ _),
    List.append_nil, List.length_take]

theorem fillBuffer_nil (n : Nat) (values : List ℚ) : fillBuffer n values [] = [] := by
  simp [fillBuffer, chunksOf]

theorem fillBuffer_cons_eq {n : Nat} (values : List ℚ) {data : List ℚ}
    (hn : n ≠ 0) (hd : data ≠ []) (hv : values.length = n) :
    fillBuffer n values data =
      values.take (min n data.length) ++ fillBuffer n values (data.drop n) := by
  rw [fillBuffer, chunksOf, dif_neg (by simp [hn, hd]), List.map_cons,
    List.flatten_cons, fillFrame_of_take data hv]
  rfl

theorem fillBuffer_spec {n : Nat} {values : List ℚ} (hn : n ≠ 0)
    (hv : values.length = n) :
    ∀ (L : Nat) (data : List ℚ), data.length ≤ L →
      (fillBuffer n values data).length = data.length ∧
      ∀ i, i < data.length → (fillBuffer n values data)[i]? = values[i % n]? := by
  intro L
  induction L with
  | zero =>
    intro data hlen
    have hdn : data = [] := List.length_eq_zero.mp (Nat.le_zero.mp hlen)
    subst hdn
    simp [fillBuffer_nil]
  | succ L IH =>
    intro data hlen
    by_cases hd : data = []
    · subst hd; simp [fillBuffer_nil]
    · have hdpos : 0 < data.length := List.length_pos.mpr hd
      rw [fillBuffer_cons_eq values hn hd hv]
      by_cases hcase : data.length < n
      · have hmin : min n data.length = data.length := by omega
        have hdrop : data.drop n = [] := List.drop_eq_nil_of_le (by omega)
        rw [hmin, hdrop, fillBuffer_nil, List.append_nil]
        constructor
        · rw [List.length_take, hv]; omega
        · intro i hi
          rw [List.getElem?_take_of_lt hi, Nat.mod_eq_of_lt (by omega)]
      · have hmin : min n data.length = n := by omega
        have htake : values.take (min n data.length) = values := by
          rw [hmin, ← hv, List.take_length]
        rw [htake]
        have hdrop : (data.drop n).length ≤ L := by
          rw [List.length_drop]; omega
        obtain ⟨IH1, IH2⟩ := IH (data.drop n) hdrop
        constructor
        · rw [List.length_append, IH1, hv, List.length_drop]; omega
        · intro i hi
          by_cases hin : i < n
          · rw [List.getElem?_append_left (by omega : i < values.length),
              Nat.mod_eq_of_lt hin]
          · rw [List.getElem?_append_right (by omega : values.length ≤ i), hv,
              IH2 (i - n) (by rw [List.length_drop]; omega),
              ← Nat.mod_eq_sub_mod (show i ≥ n by omega)]

theorem ingestStep_length (ok : Bool) (s : List ℚ) (d : Datagram) :
    (ingestStep ok s d).store.length = s.length := by
  unfold ingestStep
  cases h : applicable d with
  | none => simp
  | some cv =>
    obtain ⟨ch, v⟩ := cv
    simp only [storeWrite]
    by_cases hlt : ch < s.length
    · rw [if_pos hlt]
      cases ok <;> simp
    · rw [if_neg hlt]

theorem ingestRun_length (inputs : List (Datagram × Bool)) (s : List ℚ) :
    (ingestRun inputs s).store.length = s.length := by
  induction inputs generalizing s with
  | nil => rfl
  | cons p rest IH =>
    obtain ⟨d, ok⟩ := p
    simp only [ingestRun]
    by_cases hf : (ingestStep ok s d).fatal
    · rw [if_pos hf]
      exact ingestStep_length ok s d
    · rw [if_neg hf]
      rw [IH (ingestStep ok s d).store]
      exact ingestStep_length ok s d

theorem msgInputs_cons (p : String × ℚ) (rest : List (String × ℚ)) :
    msgInputs (p :: rest) =
      (Datagram.packet (.Message ⟨p.1, [OscType.Float p.2]⟩), true) :: msgInputs rest := rfl

theorem ingestRun_lastWrite (msgs : List (String × ℚ)) :
    ∀ (s : List ℚ), s.length = 8 →
      (∀ p ∈ msgs, (lookupAddr p.1).isSome) →
      ∀ c, c < 8 →
        (ingestRun (msgInputs msgs) s).store[c]? =
          (lastWriteTo c msgs).or s[c]? := by
  induction msgs with
  | nil =>
    intro s _ _ c _
    simp [msgInputs, ingestRun, lastWriteTo]
  | cons p rest IH =>
    intro s hs hall c hc
    obtain ⟨a, v⟩ := p
    have ha : (lookupAddr a).isSome := hall (a, v) (by simp)
    obtain ⟨ch, hch⟩ := Option.isSome_iff_exists.mp ha
    have happ : applicable (.packet (.Message ⟨a, [OscType.Float v]⟩)) = some (ch, v) :=
      applicable_float hch rfl
    have hstep := ingestStep_ok hs happ
    rw [msgInputs_cons]
    simp only [ingestRun, hstep]
    rw [if_neg (by simp)]
    simp only []
    have hrest : ∀ q ∈ rest, (lookupAddr q.1).isSome := fun q hq => hall q (by simp [hq])
    rw [IH (s.set ch (audio_val v)) (by rw [List.length_set]; exact hs) hrest c hc]
    cases hlw : lastWriteTo c rest with
    | some w => simp [lastWriteTo, hlw]
    | none =>
      simp only [lastWriteTo, hlw, Option.none_or]
      by_cases hc' : lookupAddr a = some c
      · have hcc : ch = c := Option.some.inj (hch ▸ hc')
        subst hcc
        rw [List.getElem?_set_eq_of_lt (audio_val v) (show ch < s.length by omega)]
        simp [hc']
      · have hne : ch ≠ c := fun he => hc' (he ▸ hch)
        rw [List.getElem?_set_ne hne]
        simp [hc']

/-! Claim theorems. -/

/-- Claim C1, counterexample: the claim's frame value `clamp(round(v·127), 0, 127)`
does not match the code, which truncates (`as u8`) instead of rounding. At the
claim's own example input `("/lfo1", 0.5)` the code emits the frame
`[0xB0, 0x00, 63]`, not `[0xB0, 0x00, 64]`. -/
theorem claim_C1_counterexample :
    (ingestStep true initial_values
      (.packet (.Message ⟨"/lfo1", [OscType.Float (1/2)]⟩))).frames =
        [[0xB0, 0x00, 63]] ∧
    [[0xB0, 0x00, (63 : Nat)]] ≠ [[0xB0, 0x00, 64]] := by
  constructor
  · norm_num [ingestStep, applicable, lookupAddr, osc_address_map, storeWrite,
      initial_values, audio_val, midi_message, midi_val, clampQ]
    decide
  · decide

/-- Claim C1 as amended: for every address `a` mapped to index `i` and every
`v ∈ [0,1]`, processing the message `(a, v)` sets `store[i]` to `2v−1` and
emits exactly one 3-byte frame `[0xB0, i, trunc(v·127)]` (truncation, not
rounding; in particular `("/lfo1", 0.5)` yields `store[0] = 0` and frame
`[0xB0, 0x00, 63]`). -/
theorem claim_C1 (a : String) (i : Nat) (v : ℚ) (s : List ℚ)
    (hmap : lookupAddr a = some i) (hs : s.length = 8) (h0 : 0 ≤ v) (h1 : v ≤ 1) :
    (ingestStep true s (.packet (.Message ⟨a, [OscType.Float v]⟩))).store[i]? =
        some (2 * v - 1) ∧
    (ingestStep true s (.packet (.Message ⟨a, [OscType.Float v]⟩))).frames =
        [[0xB0, i, (⌊v * 127⌋).toNat]] ∧
    (ingestStep true s (.packet (.Message ⟨a, [OscType.Float v]⟩))).fatal = false := by
  have happ : applicable (.packet (.Message ⟨a, [OscType.Float v]⟩)) = some (i, v) :=
    applicable_float hmap rfl
  have hi : i < 8 := lookupAddr_lt_eight hmap
  rw [ingestStep_ok hs happ]
  refine ⟨?_, ?_, rfl⟩
  · rw [List.getElem?_set_eq_of_lt (audio_val v) (show i < s.length by omega)]
    simp only [audio_val, Option.some.injEq]
    ring
  · simp only [midi_message, midi_val]
    have hcl : clampQ (v * 127) 0 127 = v * 127 := by
      unfold clampQ
      rw [if_neg (by push_neg; linarith), if_neg (by push_neg; linarith)]
    rw [hcl]

/-- Claim C1 witness: the amended claim at the concrete input `("/lfo1", 1/2)`
from the initial store. -/
theorem claim_C1_witness :
    (ingestStep true initial_values
      (.packet (.Message ⟨"/lfo1", [OscType.Float (1/2)]⟩))).store[0]? =
        some (2 * (1/2 : ℚ) - 1) ∧
    (ingestStep true initial_values
      (.packet (.Message ⟨"/lfo1", [OscType.Float (1/2)]⟩))).frames =
        [[0xB0, 0, (⌊(1/2 : ℚ) * 127⌋).toNat]] ∧
    (ingestStep true initial_values
      (.packet (.Message ⟨"/lfo1", [OscType.Float (1/2)]⟩))).fatal = false :=
  claim_C1 ("/lfo1") 0 (1/2) initial_values (by decide) (by decide)
    (by norm_num) (by norm_num)

/-- Claim C2, counterexample: the program's own address map sends `/stepped8`
to channel 5, not channel 7. Processing `("/stepped8", 1.0)` from the initial
store leaves `store[7]` at `0` and emits the frame `[0xB0, 0x05, 127]`, not
`[0xB0, 0x07, 127]`. -/
theorem claim_C2_counterexample :
    lookupAddr ("/stepped8") = some 5 ∧
    (ingestStep true initial_values
      (.packet (.Message ⟨"/stepped8", [OscType.Float 1]⟩))).store[7]? = some 0 ∧
    (ingestStep true initial_values
      (.packet (.Message ⟨"/stepped8", [OscType.Float 1]⟩))).frames =
        [[0xB0, 0x05, 127]] ∧
    [[0xB0, 0x05, (127 : Nat)]] ≠ [[0xB0, 0x07, 127]] := by
  have hl : lookupAddr ("/stepped8") = some 5 := by decide
  have happ : applicable (.packet (.Message ⟨"/stepped8", [OscType.Float 1]⟩)) =
      some (5, 1) := applicable_float hl rfl
  have hmv : midi_val 1 = 127 := by norm_num [midi_val, clampQ]; decide
  have hav : audio_val 1 = 1 := by norm_num [audio_val]
  rw [ingestStep_ok (by decide) happ, hmv, hav]
  refine ⟨hl, by decide, by decide, by decide⟩

/-- Claim C2 as amended: end-to-end over the program's own address map,
`/stepped8` resolves to channel 5, so the input `("/stepped8", 1.0)` sets
`store[5] = 1.0` and emits the control frame `[0xB0, 0x05, 127]`. -/
theorem claim_C2 :
    (ingestStep true initial_values
      (.packet (.Message ⟨"/stepped8", [OscType.Float 1]⟩))) =
    ⟨[0, 0, 0, 0, 0, 1, 0, 0], [[0xB0, 0x05, 127]], false⟩ := by
  have hl : lookupAddr ("/stepped8") = some 5 := by decide
  have happ : applicable (.packet (.Message ⟨"/stepped8", [OscType.Float 1]⟩)) =
      some (5, 1) := applicable_float hl rfl
  have hmv : midi_val 1 = 127 := by norm_num [midi_val, clampQ]; decide
  have hav : audio_val 1 = 1 := by norm_num [audio_val]
  rw [ingestStep_ok (by decide) happ, hmv, hav]
  decide

/-- Claim C3: a datagram that fails to decode, decodes to a bundle, carries an
unknown address, or whose first argument is absent or not a float leaves the
store unchanged, emits no frame, raises no fatal error, and the loop continues
with the remaining datagrams. -/
theorem claim_C3 (ok : Bool) (s : List ℚ) (rest : List (Datagram × Bool)) (d : Datagram)
    (h : d = .undecodable ∨ d = .packet .Bundle ∨
      (∃ m, d = .packet (.Message m) ∧ lookupAddr m.addr = none) ∨
      (∃ m, d = .packet (.Message m) ∧ ∀ v : ℚ, m.args.head? ≠ some (.Float v))) :
    ingestStep ok s d = ⟨s, [], false⟩ ∧
    ingestRun ((d, ok) :: rest) s =
      ⟨(ingestRun rest s).store, (ingestRun rest s).frames, (ingestRun rest s).fatal,
        (ingestRun rest s).consumed + 1⟩ := by
  have hna : applicable d = none := by
    rcases h with rfl | rfl | ⟨m, rfl, hm⟩ | ⟨m, rfl, hm⟩
    · rfl
    · rfl
    · simp [applicable, hm]
    · simp only [applicable]
      cases hl : lookupAddr m.addr with
      | none => rfl
      | some c =>
        cases hh : m.args.head? with
        | none => rfl
        | some t =>
          cases t with
          | Float w => exact absurd hh (hm w)
          | Int n => rfl
          | Str str => rfl
  refine ⟨ingestStep_na hna, ?_⟩
  simp only [ingestRun, ingestStep_na hna]
  rw [if_neg (by simp)]
  simp

/-- Claim C3 witness: the spec's own example of a not-applicable input,
`("/unknown", 0.3)`, followed by an empty remainder. -/
theorem claim_C3_witness :
    ingestStep true initial_values
      (.packet (.Message ⟨"/unknown", [OscType.Float (3/10)]⟩)) =
        ⟨initial_values, [], false⟩ ∧
    ingestRun [(.packet (.Message ⟨"/unknown", [OscType.Float (3/10)]⟩), true)]
        initial_values =
      ⟨(ingestRun [] initial_values).store, (ingestRun [] initial_values).frames,
        (ingestRun [] initial_values).fatal, (ingestRun [] initial_values).consumed + 1⟩ :=
  claim_C3 true initial_values []
    (.packet (.Message ⟨"/unknown", [OscType.Float (3/10)]⟩))
    (Or.inr (Or.inr (Or.inl ⟨⟨"/unknown", [OscType.Float (3/10)]⟩, rfl, by decide⟩)))

/-- Claim C4, counterexample: the store does not stay inside `[-1, 1]` at every
reachable state, because the code never validates the input float. Processing
`("/lfo1", 2.0)` stores `2·2 − 1 = 3`, which is outside `[-1, 1]`. -/
theorem claim_C4_counterexample :
    (ingestStep true initial_values
      (.packet (.Message ⟨"/lfo1", [OscType.Float 2]⟩))).store[0]? = some 3 ∧
    ¬ ((-1 : ℚ) ≤ 3 ∧ (3 : ℚ) ≤ 1) := by
  have happ : applicable (.packet (.Message ⟨"/lfo1", [OscType.Float 2]⟩)) =
      some (0, 2) := applicable_float (by decide) rfl
  have hav : audio_val 2 = 3 := by norm_num [audio_val]
  rw [ingestStep_ok (by decide) happ, hav]
  exact ⟨by decide, by norm_num⟩

/-- Claim C4 as amended: provided every applicable input message carries a
float in `[0, 1]` (the semantic input range the spec assumes) and the store
starts inside `[-1, 1]`, every value held in the store after any finite ingest
run lies in `[-1, 1]`; in particular `2·v − 1 ∈ [-1, 1]` for `v ∈ [0, 1]`. -/
theorem claim_C4 (inputs : List (Datagram × Bool)) (s : List ℚ)
    (hs : s.length = 8)
    (hinit : ∀ x ∈ s, -1 ≤ x ∧ x ≤ 1)
    (hin : ∀ p ∈ inputs, ∀ ch : Nat, ∀ v : ℚ,
      applicable p.1 = some (ch, v) → 0 ≤ v ∧ v ≤ 1) :
    ∀ x ∈ (ingestRun inputs s).store, -1 ≤ x ∧ x ≤ 1 := by
  induction inputs generalizing s with
  | nil => exact hinit
  | cons p rest IH =>
    obtain ⟨d, ok⟩ := p
    have hrest : ∀ q ∈ rest, ∀ ch : Nat, ∀ v : ℚ,
        applicable q.1 = some (ch, v) → 0 ≤ v ∧ v ≤ 1 :=
      fun q hq => hin q (by simp [hq])
    cases happ : applicable d with
    | none =>
      simp only [ingestRun, ingestStep_na happ]
      rw [if_neg (by simp)]
      exact IH s hs hinit hrest
    | some cv =>
      obtain ⟨ch, v⟩ := cv
      have hv := hin (d, ok) (by simp) ch v happ
      have hset : ∀ x ∈ s.set ch (audio_val v), -1 ≤ x ∧ x ≤ 1 := by
        intro x hx
        rcases List.mem_or_eq_of_mem_set hx with hmem | rfl
        · exact hinit x hmem
        · unfold audio_val
          constructor <;> linarith [hv.1, hv.2]
      cases ok with
      | true =>
        simp only [ingestRun, ingestStep_ok hs happ]
        rw [if_neg (by simp)]
        exact IH (s.set ch (audio_val v)) (by rw [List.length_set]; exact hs) hset hrest
      | false =>
        simp only [ingestRun, ingestStep_sendFail hs happ]
        rw [if_pos trivial]
        exact hset

/-- Claim C4 witness: the amended invariant on the run of the single message
`("/lfo1", 1.0)` from the initial store, applied to the value the run stored
at channel 0. -/
theorem claim_C4_witness :
    (-1 : ℚ) ≤ audio_val 1 ∧ audio_val 1 ≤ 1 := by
  have happ : applicable (.packet (.Message ⟨"/lfo1", [OscType.Float 1]⟩)) =
      some (0, 1) := applicable_float (by decide) rfl
  have hmem : audio_val 1 ∈
      (ingestRun [(.packet (.Message ⟨"/lfo1", [OscType.Float 1]⟩), true)]
        initial_values).store := by
    have hg : (ingestRun [(.packet (.Message ⟨"/lfo1", [OscType.Float 1]⟩), true)]
        initial_values).store[0]? = some (audio_val 1) := by
      simp only [ingestRun, ingestStep_ok (show initial_values.length = 8 by decide) happ]
      rw [if_neg (by simp)]
      exact List.getElem?_set_eq_of_lt (audio_val 1)
        (show 0 < initial_values.length by decide)
    exact List.mem_iff_getElem?.mpr ⟨0, hg⟩
  exact claim_C4 [(.packet (.Message ⟨"/lfo1", [OscType.Float 1]⟩), true)]
    initial_values (by decide)
    (by intro x hx; rw [initial_values, List.mem_replicate] at hx;
        rw [hx.2]; norm_num)
    (by intro p hp ch v h
        simp only [List.mem_singleton] at hp
        subst hp
        rw [happ] at h
        obtain ⟨-, rfl⟩ : 0 = ch ∧ 1 = v := by
          simpa [eq_comm] using h
        norm_num)
    (audio_val 1) hmem

/-- Claim C5: if the MIDI send of a frame fails, the iteration is fatal
(`.unwrap()` panics): the run stops having consumed only that datagram, no
frame is delivered, and the remaining datagrams are never ingested. -/
theorem claim_C5 (s : List ℚ) (d : Datagram) (rest : List (Datagram × Bool))
    (ch : Nat) (v : ℚ) (hs : s.length = 8) (happ : applicable d = some (ch, v)) :
    ingestRun ((d, false) :: rest) s = ⟨s.set ch (audio_val v), [], true, 1⟩ := by
  simp only [ingestRun, ingestStep_sendFail hs happ]
  rw [if_pos trivial]

/-- Claim C5 witness: a failed send on `("/lfo1", 1/2)` stops the loop even
though another applicable datagram is queued behind it. -/
theorem claim_C5_witness :
    ingestRun [(.packet (.Message ⟨"/lfo1", [OscType.Float (1/2)]⟩), false),
               (.packet (.Message ⟨"/lfo2", [OscType.Float 1]⟩), true)]
        initial_values =
      ⟨initial_values.set 0 (audio_val (1/2)), [], true, 1⟩ :=
  claim_C5 initial_values (.packet (.Message ⟨"/lfo1", [OscType.Float (1/2)]⟩))
    [(.packet (.Message ⟨"/lfo2", [OscType.Float 1]⟩), true)] 0 (1/2)
    (by decide) (applicable_float (by decide) rfl)

/-- Claim C6: the render callback broadcasts the store snapshot: every frame
(consecutive chunk of 8 samples) of the output buffer receives the same
values, sample `k` of frame `j` being `store[k]`; the output depends only on
the snapshot (no interpolation with previous buffer contents). -/
theorem claim_C6 (values data : List ℚ) (hv : values.length = 8) :
    (fillBuffer 8 values data).length = data.length ∧
    ∀ j k, k < 8 → 8 * j + k < data.length →
      (fillBuffer 8 values data)[8 * j + k]? = values[k]? := by
  obtain ⟨h1, h2⟩ := fillBuffer_spec (by norm_num) hv data.length data le_rfl
  refine ⟨h1, fun j k hk hlt => ?_⟩
  rw [h2 (8 * j + k) hlt, show (8 * j + k) % 8 = k by omega]

/-- Claim C6 witness: a 19-sample buffer filled from an 8-value snapshot,
checked at sample 2 of frame 1. -/
theorem claim_C6_witness :
    (fillBuffer 8 ([1, 2, 3, 4, 5, 6, 7, 8]) (List.replicate 19 0)).length =
        (List.replicate 19 (0 : ℚ)).length ∧
    (fillBuffer 8 ([1, 2, 3, 4, 5, 6, 7, 8]) (List.replicate 19 0))[8 * 1 + 2]? =
        ([1, 2, 3, 4, 5, 6, 7, (8 : ℚ)])[2]? :=
  ⟨(claim_C6 ([1, 2, 3, 4, 5, 6, 7, 8]) (List.replicate 19 0) (by decide)).1,
   (claim_C6 ([1, 2, 3, 4, 5, 6, 7, 8]) (List.replicate 19 0) (by decide)).2
      1 2 (by decide) (by decide)⟩

/-- Claim C7: after any finite sequence of applicable messages, each channel
holds the transformed value `2v − 1` of the last message addressed to it and
never-addressed channels keep the neutral `0`; each single step modifies no
slot other than the addressed one; and a render snapshot taken after the
writes observes exactly these values. -/
theorem claim_C7 (msgs : List (String × ℚ))
    (hall : ∀ p ∈ msgs, (lookupAddr p.1).isSome) (c : Nat) (hc : c < 8) :
    (ingestRun (msgInputs msgs) initial_values).store[c]? =
      some ((lastWriteTo c msgs).getD 0) ∧
    (∀ (ok : Bool) (s : List ℚ) (d : Datagram) (ch : Nat) (v : ℚ) (j : Nat),
      applicable d = some (ch, v) → j ≠ ch →
      (ingestStep ok s d).store[j]? = s[j]?) ∧
    (∀ data : List ℚ, c < data.length →
      (fillBuffer 8 (ingestRun (msgInputs msgs) initial_values).store data)[c]? =
        some ((lastWriteTo c msgs).getD 0)) := by
  have h1 : (ingestRun (msgInputs msgs) initial_values).store[c]? =
      some ((lastWriteTo c msgs).getD 0) := by
    rw [ingestRun_lastWrite msgs initial_values (by decide) hall c hc]
    have hin : initial_values[c]? = some 0 := by
      rw [initial_values, List.getElem?_replicate, if_pos hc]
    rw [hin]
    cases lastWriteTo c msgs <;> simp [Option.or, Option.getD]
  refine ⟨h1, ?_, ?_⟩
  · intro ok s d ch v j happ hne
    unfold ingestStep
    rw [happ]
    show (match storeWrite s ch (audio_val v) with
      | none => (⟨s, [], true⟩ : StepResult)
      | some store' =>
        if ok then ⟨store', [midi_message ch (midi_val v)], false⟩
        else ⟨store', [], true⟩).store[j]? = s[j]?
    cases hw : storeWrite s ch (audio_val v) with
    | none => rfl
    | some s' =>
      have hs' : s' = s.set ch (audio_val v) := by
        unfold storeWrite at hw
        by_cases hlt : ch < s.length
        · rw [if_pos hlt] at hw
          exact (Option.some.inj hw).symm
        · rw [if_neg hlt] at hw
          cases hw
      subst hs'
      cases ok with
      | false => exact List.getElem?_set_ne (Ne.symm hne)
      | true => exact List.getElem?_set_ne (Ne.symm hne)
  · intro data hlt
    have hsl : (ingestRun (msgInputs msgs) initial_values).store.length = 8 := by
      rw [ingestRun_length]; decide
    obtain ⟨-, h2⟩ := fillBuffer_spec (by norm_num) hsl data.length data le_rfl
    rw [h2 c hlt, Nat.mod_eq_of_lt hc, h1]

/-- Claim C7 witness: three interleaved messages (two to channel 0, one to
channel 1); channel 0 is checked against its last write, with a locality
instance and a 16-sample render snapshot. -/
theorem claim_C7_witness :
    (ingestRun (msgInputs ([("/lfo1", 1), ("/lfo2", 1/2), ("/lfo1", 0)]))
        initial_values).store[0]? =
      some ((lastWriteTo 0 ([("/lfo1", 1), ("/lfo2", 1/2), ("/lfo1", 0)])).getD 0) ∧
    (ingestStep true initial_values
        (.packet (.Message ⟨"/lfo3", [OscType.Float 1]⟩))).store[4]? =
      initial_values[4]? ∧
    (fillBuffer 8
        (ingestRun (msgInputs ([("/lfo1", 1), ("/lfo2", 1/2), ("/lfo1", 0)]))
          initial_values).store (List.replicate 16 0))[0]? =
      some ((lastWriteTo 0 ([("/lfo1", 1), ("/lfo2", 1/2), ("/lfo1", 0)])).getD 0) :=
  ⟨(claim_C7 ([("/lfo1", 1), ("/lfo2", 1/2), ("/lfo1", 0)]) (by decide) 0 (by decide)).1,
   (claim_C7 ([("/lfo1", 1), ("/lfo2", 1/2), ("/lfo1", 0)]) (by decide) 0 (by decide)).2.1
     true initial_values (.packet (.Message ⟨"/lfo3", [OscType.Float 1]⟩)) 2 1 4
     (applicable_float (by decide) rfl) (by decide),
   (claim_C7 ([("/lfo1", 1), ("/lfo2", 1/2), ("/lfo1", 0)]) (by decide) 0 (by decide)).2.2
     (List.replicate 16 0) (by decide)⟩

/-- Claim C8: every channel index the address map can resolve is `< 8`; the
store keeps exactly 8 entries across any step or run; and along the ingest
path the store write is always in bounds, so its panic branch is unreachable. -/
theorem claim_C8 :
    (∀ p ∈ osc_address_map, p.2 < 8) ∧
    (∀ (a : String) (i : Nat), lookupAddr a = some i → i < 8) ∧
    (∀ (ok : Bool) (s : List ℚ) (d : Datagram), s.length = 8 →
      (ingestStep ok s d).store.length = 8) ∧
    (∀ (inputs : List (Datagram × Bool)) (s : List ℚ), s.length = 8 →
      (ingestRun inputs s).store.length = 8) ∧
    (∀ (s : List ℚ) (d : Datagram) (ch : Nat) (v : ℚ), s.length = 8 →
      applicable d = some (ch, v) → (storeWrite s ch (audio_val v)).isSome) := by
  refine ⟨by decide, fun a i h => lookupAddr_lt_eight h, ?_, ?_, ?_⟩
  · intro ok s d hs
    rw [ingestStep_length]
    exact hs
  · intro inputs s hs
    rw [ingestRun_length]
    exact hs
  · intro s d ch v hs happ
    have hch := applicable_channel_lt happ
    unfold storeWrite
    rw [if_pos (by omega)]
    rfl

/-- Claim C8 witness: each conjunct at a concrete instance. -/
theorem claim_C8_witness :
    ("/stepped8", 5).2 < 8 ∧
    (3 : Nat) < 8 ∧
    (ingestStep true initial_values .undecodable).store.length = 8 ∧
    (ingestRun [] initial_values).store.length = 8 ∧
    (storeWrite initial_values 0 (audio_val 1)).isSome :=
  ⟨claim_C8.1 ("/stepped8", 5) (by decide),
   claim_C8.2.1 ("/lfo4") 3 (by decide),
   claim_C8.2.2.1 true initial_values .undecodable (by decide),
   claim_C8.2.2.2.1 [] initial_values (by decide),
   claim_C8.2.2.2.2 initial_values
     (.packet (.Message ⟨"/lfo1", [OscType.Float 1]⟩)) 0 1 (by decide)
     (applicable_float (by decide) rfl)⟩

/-- Claim C10: within one ingest iteration the store write precedes the MIDI
send, so when the send fails fatally the store already holds the new value:
the iteration is fatal, no frame was delivered, the addressed slot holds
`2v − 1`, and a render fill from that store already observes the new value. -/
theorem claim_C10 (s : List ℚ) (d : Datagram) (ch : Nat) (v : ℚ)
    (hs : s.length = 8) (happ : applicable d = some (ch, v)) :
    (ingestStep false s d).fatal = true ∧
    (ingestStep false s d).frames = [] ∧
    (ingestStep false s d).store[ch]? = some (audio_val v) ∧
    ∀ data : List ℚ, ch < data.length →
      (fillBuffer 8 (ingestStep false s d).store data)[ch]? = some (audio_val v) := by
  have hch : ch < 8 := applicable_channel_lt happ
  rw [ingestStep_sendFail hs happ]
  refine ⟨rfl, rfl, ?_, ?_⟩
  · exact List.getElem?_set_eq_of_lt (audio_val v) (show ch < s.length by omega)
  · intro data hlt
    obtain ⟨-, h2⟩ := fillBuffer_spec (show (8:Nat) ≠ 0 by norm_num)
      (show (s.set ch (audio_val v)).length = 8 by rw [List.length_set]; exact hs)
      data.length data le_rfl
    rw [h2 ch hlt, Nat.mod_eq_of_lt hch]
    exact List.getElem?_set_eq_of_lt (audio_val v) (show ch < s.length by omega)

/-- Claim C10 witness: a failed send on `("/stepped32", 1.0)`: the iteration is
fatal yet channel 4 already holds the new value, also as seen by a render fill
of an 8-sample buffer. -/
theorem claim_C10_witness :
    (ingestStep false initial_values
        (.packet (.Message ⟨"/stepped32", [OscType.Float 1]⟩))).fatal = true ∧
    (ingestStep false initial_values
        (.packet (.Message ⟨"/stepped32", [OscType.Float 1]⟩))).frames = [] ∧
    (ingestStep false initial_values
        (.packet (.Message ⟨"/stepped32", [OscType.Float 1]⟩))).store[4]? =
      some (audio_val 1) ∧
    (fillBuffer 8
        (ingestStep false initial_values
          (.packet (.Message ⟨"/stepped32", [OscType.Float 1]⟩))).store
        (List.replicate 8 0))[4]? = some (audio_val 1) := by
  obtain ⟨w1, w2, w3, w4⟩ := claim_C10 initial_values
    (.packet (.Message ⟨"/stepped32", [OscType.Float 1]⟩)) 4 1 (by decide)
    (applicable_float (by decide) rfl)
  exact ⟨w1, w2, w3, w4 (List.replicate 8 0) (by decide)⟩

end OscMidiCv
